import Mathlib

/-!
# Verification of the wmo-parser decoding core

A shallow embedding of the wmo-parser repository (line-cursor parsing engine,
WMO header decoder, TCPOD / recon-observation / HDOB grammars) together with
proofs about the claims of its specification.

Conventions of the embedding:
* JavaScript strings are Lean `String`s; character classes (`\d`, `\w`, `\s`)
  are embedded on their ASCII fragment, which covers every character the
  decoders' regular expressions can accept.
* JavaScript numbers are `Int` (or `ℚ` where the source divides by `10.0`).
* `undefined`/`null` distinctions that the source observes are modelled
  explicitly where they matter.
* Fallible code returns `Option`/`Except`.
-/

/-! ## JavaScript primitive helpers -/

/-- ASCII decimal digit, the `\d` character class of the source's regexes. -/
def isJsDigit (c : Char) : Bool := '0' ≤ c && c ≤ '9'

/-- The `\w` character class (`[A-Za-z0-9_]`). -/
def isJsWord (c : Char) : Bool :=
  isJsDigit c || ('a' ≤ c && c ≤ 'z') || ('A' ≤ c && c ≤ 'Z') || c = '_'

/-- The `\s` character class on its ASCII fragment (space, tab, LF, VT, FF, CR). -/
def isJsSpace (c : Char) : Bool :=
  c = ' ' || c = '\t' || c = '\n' || c = '\x0b' || c = '\x0c' || c = '\r'

/-- `String.trim` of JavaScript: strip `\s` characters from both ends. -/
def jsTrim (s : String) : String :=
  String.mk (((s.data.dropWhile isJsSpace).reverse.dropWhile isJsSpace).reverse)

/-- Value of a list of decimal digit characters. -/
def digitsVal (ds : List Char) : Nat :=
  ds.foldl (fun a c => a * 10 + (c.toNat - '0'.toNat)) 0

/-- JavaScript `parseInt` on the strings produced by the source's digit/slash
regex groups: the longest digit prefix, `none` for `NaN` (no leading digit). -/
def jsParseInt (s : String) : Option Int :=
  let ds := s.data.takeWhile isJsDigit
  if ds.isEmpty then none else some (digitsVal ds)

/-- JavaScript `Array.prototype.indexOf` on an integer array:
index of the first occurrence, `-1` when absent. -/
def jsIndexOf (l : List Int) (x : Int) : Int :=
  go l 0
where
  go : List Int → Int → Int
    | [], _ => -1
    | y :: ys, i => if y = x then i else go ys (i + 1)

/-! ## HDOB quality-control decoding (src/parsers/ur/URXX15.ts, Urxx15Data)

The two trailing single-digit fields of an HDOB data record are decoded by
`Urxx15Data`'s constructor into a raw code plus derived validity booleans. -/

/-- `IUrxx15PositionQuality`: the position-quality bundle of an HDOB record. -/
structure Urxx15PositionQuality where
  raw : Int
  pos : Bool
  pral : Bool
  deriving DecidableEq, Repr

/-- `IUrxx15MetricQuality`: the meteorological-quality bundle of an HDOB record. -/
structure Urxx15MetricQuality where
  raw : Int
  temp : Bool
  wind : Bool
  sfmr : Bool
  deriving DecidableEq, Repr

/-- URXX15.ts lines 222-229: `posQual` derived from the first quality digit. -/
def mkPosQual (posQual : Int) : Urxx15PositionQuality :=
  { raw := posQual
    pos := posQual ≠ 1 && posQual ≠ 3
    pral := posQual < 2 }

/-- URXX15.ts lines 231-239: `metQual` derived from the second quality digit. -/
def mkMetQual (metQual : Int) : Urxx15MetricQuality :=
  { raw := metQual
    temp := metQual ≠ 1 && metQual ≠ 4 && metQual ≠ 5 && metQual ≠ 9
    wind := metQual ≠ 2 && metQual ≠ 4 && metQual ≠ 6 && metQual ≠ 9
    sfmr := metQual ≠ 3 && metQual < 5 }

/-- C1: for every HDOB data record (raw quality codes are single digits
`0`-`9` by the data-line regex), the derived validity booleans follow the
spec's tables: `pos` is false precisely for raw codes 1 and 3, `pral` is true
precisely for 0 and 1, `temp` is false precisely for 1, 4, 5, 9, `wind` is
false precisely for 2, 4, 6, 9, and `sfmr` is false precisely for
3, 5, 6, 7, 8, 9. -/
theorem hdob_quality_tables (d : Int) (h0 : 0 ≤ d) (h9 : d ≤ 9) :
    ((mkPosQual d).pos = false ↔ (d = 1 ∨ d = 3)) ∧
    ((mkPosQual d).pral = true ↔ (d = 0 ∨ d = 1)) ∧
    ((mkMetQual d).temp = false ↔ (d = 1 ∨ d = 4 ∨ d = 5 ∨ d = 9)) ∧
    ((mkMetQual d).wind = false ↔ (d = 2 ∨ d = 4 ∨ d = 6 ∨ d = 9)) ∧
    ((mkMetQual d).sfmr = false ↔ (d = 3 ∨ d = 5 ∨ d = 6 ∨ d = 7 ∨ d = 8 ∨ d = 9)) := by
  interval_cases d <;> simp [mkPosQual, mkMetQual]

/-- Witness for C1 at the spec's sample codes: raw position code 2 gives
`pos = true, pral = false`; raw met code 9 invalidates all three flags. -/
theorem hdob_quality_tables_witness :
    (((mkPosQual 2).pos = false ↔ ((2:Int) = 1 ∨ (2:Int) = 3)) ∧
     ((mkPosQual 2).pral = true ↔ ((2:Int) = 0 ∨ (2:Int) = 1)) ∧
     ((mkMetQual 2).temp = false ↔ ((2:Int) = 1 ∨ (2:Int) = 4 ∨ (2:Int) = 5 ∨ (2:Int) = 9)) ∧
     ((mkMetQual 2).wind = false ↔ ((2:Int) = 2 ∨ (2:Int) = 4 ∨ (2:Int) = 6 ∨ (2:Int) = 9)) ∧
     ((mkMetQual 2).sfmr = false ↔
       ((2:Int) = 3 ∨ (2:Int) = 5 ∨ (2:Int) = 6 ∨ (2:Int) = 7 ∨ (2:Int) = 8 ∨ (2:Int) = 9))) :=
  hdob_quality_tables 2 (by decide) (by decide)

/-! ## Recon observation coordinate decoding
(src/parsers/ur/URNT10_11.ts, Urxx10_11Observation, lines 356-372)

The observation line's regex delivers the quadrant digit (group 5, one char
of `[0-35-8\/]`), the latitude group (group 6) and the longitude group
(group 7), each three characters of `[\d\/]`. -/

/-- `Urxx10_11Observation.asInt` (URNT10_11.ts lines 403-405):
`strVal && strVal[0] !== '/' ? parseInt(strVal) : null`. -/
def urxxAsInt (s : String) : Option Int :=
  if s ≠ "" && s.front ≠ '/' then jsParseInt s else none

/-- Line 362: `this.quadrant = this.asInt(dl[5]) ?? 0`. -/
def urxxQuadrant (g5 : String) : Int := (urxxAsInt g5).getD 0

/-- Line 369: decoded latitude
`(asInt(dl[6]) ?? 0) / 10.0 * (quadrant > 4 ? -1 : 1)`. -/
def urxxLat (q : Int) (g6 : String) : ℚ :=
  (((urxxAsInt g6).getD 0 : Int) : ℚ) / 10 * (if 4 < q then -1 else 1)

/-- Line 370: decoded longitude
`(asInt(dl[7]) ?? 0) / 10.0 * ([0,1,5,6].indexOf(quadrant) >= 0 ? -1 : 1)
 + (quadrant < 90 && [1,2,6,7].indexOf(quadrant) ? 100 : 0)`.
The second ternary's condition is the value of the `&&`: `false` when
`quadrant >= 90`, otherwise the number `[1,2,6,7].indexOf(quadrant)`, which is
truthy exactly when it is nonzero (so `-1`, meaning "not in the list", is
truthy, and index `0`, meaning quadrant 1, is falsy). -/
def urxxLon (q : Int) (g7 : String) : ℚ :=
  (((urxxAsInt g7).getD 0 : Int) : ℚ) / 10
      * (if 0 ≤ jsIndexOf [0, 1, 5, 6] q then -1 else 1)
    + (if q < 90 ∧ jsIndexOf [1, 2, 6, 7] q ≠ 0 then 100 else 0)

/-- The longitude rule in the words of the claim (and of the comment at
URNT10_11.ts lines 365-367): negate for quadrants 0, 1, 5, 6 and add 100
degrees exactly for quadrants 1, 2, 6, 7. Stated only to compare with the
source's `urxxLon`. -/
def claimLon (q : Int) (g7 : String) : ℚ :=
  (((urxxAsInt g7).getD 0 : Int) : ℚ) / 10
      * (if q = 0 ∨ q = 1 ∨ q = 5 ∨ q = 6 then -1 else 1)
    + (if q = 1 ∨ q = 2 ∨ q = 6 ∨ q = 7 then 100 else 0)

/-- C2 (code bug evaluated at a failing input): for an observation line with
quadrant digit `0` and longitude group `095`, the code decodes longitude
`-9.5 + 100 = 90.5` — `[1,2,6,7].indexOf(0)` is `-1`, which is truthy — while
the claim's table (and the comment right above the source line) gives `-9.5`;
conversely for quadrant `1` (index `0`, falsy) the code omits the 100-degree
offset the claim requires. The latitude rule does match the claim. -/
theorem urxx_lon_quadrant_bug :
    urxxLon 0 "095" = 181 / 2 ∧ claimLon 0 "095" = -19 / 2 ∧
    urxxLon 0 "095" ≠ claimLon 0 "095" ∧
    urxxLon 1 "095" = -19 / 2 ∧ claimLon 1 "095" = 181 / 2 ∧
    urxxLat 0 "123" = 123 / 10 ∧ urxxLat 7 "123" = -123 / 10 := by
  have h95 : urxxAsInt "095" = some 95 := rfl
  have h123 : urxxAsInt "123" = some 123 := rfl
  refine ⟨?_, ?_, ?_, ?_, ?_, ?_, ?_⟩ <;>
    norm_num [urxxLon, claimLon, urxxLat, h95, h123, jsIndexOf, jsIndexOf.go]

/-! ## The line cursor: WmoParser (unnamed WmoParser.ts source, 2025 version)

`WmoParser` owns the split lines and a mutable integer read position; methods
are embedded as explicit state-passing functions. The JavaScript distinction
between `undefined` and `null` is observable in `error()` (its guard tests
`=== null` while the unassigned field reads as `undefined`), so the value of
`this.fileLines` at a raise site is modelled explicitly. -/

/-- The errors the decode can surface: the library's `WmoParseError`, a
JavaScript `TypeError`, or a generic `Error` (e.g. a date-parse failure). -/
inductive JsErr where
  | wmoParseError (msg : String)
  | typeError (msg : String)
  | jsError (msg : String)
  deriving DecidableEq, Repr

/-- The spec's single ParseFailure kind is the `WmoParseError` class. -/
def JsErr.isParseFailure : JsErr → Bool
  | .wmoParseError _ => true
  | _ => false

/-- Runtime value of the `fileLines` field as seen by `error()`:
not yet assigned (`undefined`), `null`, or an assigned array. -/
inductive JsLinesVal where
  | undef
  | null
  | arr (lines : List String)
  deriving DecidableEq, Repr

/-- JavaScript `String.prototype.padStart` with a one-character pad. -/
def padStart (s : String) (n : Nat) (c : Char) : String :=
  if s.length < n then String.mk (List.replicate (n - s.length) c) ++ s else s

/-- The context block built by `WmoParser.error` (lines 156-173): the message,
a separator, then for loop offsets `-5..5` the line at `position + i` when
`ctxPos > 0 && ctxPos < lines.length` (note the strict `> 0`: line index 0 is
never shown), tagged with an arrow on the failing line, then a separator. -/
def mkErrContext (lines : List String) (p : Int) (message : String) : String :=
  let padSize := (toString (p + 3)).length
  let step := fun (acc : String) (i : Int) =>
    let ctxPos := p + i
    if 0 < ctxPos ∧ ctxPos < lines.length ∧ (lines.get? ctxPos.toNat).isSome then
      acc ++ "\n" ++ (if i = 0 then "-->" else "   ") ++ " " ++
        padStart (toString (p + i)) padSize '0' ++ " | " ++ ((lines.get? ctxPos.toNat).getD "")
    else acc
  (([-5, -4, -3, -2, -1, 0, 1, 2, 3, 4, 5] : List Int).foldl step
    (message ++ "\n====================")) ++ "\n===================="

/-- `WmoParser.error` (lines 151-174). The guard `this.fileLines === null` is
false when the field is still `undefined` (the constructor's empty-input
raise), so control reaches the context loop, whose first index with
`ctxPos > 0` evaluates `lines.length` on `undefined` and throws a
`TypeError`; such an index exists exactly when `position > -5`. With an
assigned array the context block is built and a `WmoParseError` is thrown. -/
def wmoErrorRaise (fileLines : JsLinesVal) (position : Int) (message : String) : JsErr :=
  match fileLines with
  | .null => .wmoParseError message
  | .undef =>
    if -5 < position then
      .typeError "Cannot read properties of undefined (reading 'length')"
    else
      .wmoParseError (message ++ "\n====================" ++ "\n====================")
  | .arr lines => .wmoParseError (mkErrContext lines position message)

/-- JavaScript `String.prototype.replace` with a plain-string pattern:
replace the first occurrence only (insert at the start for an empty pattern). -/
def replaceFirstList (pat repl : List Char) : List Char → List Char
  | [] => []
  | c :: rest =>
    if pat.isEmpty then repl ++ c :: rest
    else if pat.isPrefixOf (c :: rest) then repl ++ (c :: rest).drop pat.length
    else c :: replaceFirstList pat repl rest

/-- `split(/\r?\n/)`: cut at every `\r\n` or lone `\n` (a bare `\r` is kept). -/
def splitLinesAux : List Char → List Char → List String
  | [], acc => [String.mk acc.reverse]
  | '\r' :: '\n' :: rest, acc => String.mk acc.reverse :: splitLinesAux rest []
  | '\n' :: rest, acc => String.mk acc.reverse :: splitLinesAux rest []
  | c :: rest, acc => splitLinesAux rest (c :: acc)

def splitLines (s : String) : List String := splitLinesAux s.data []

/-- The cursor state: the split lines (immutable once constructed) and the
integer read position. -/
structure WmoParser where
  fileLines : List String
  position : Int
  deriving DecidableEq, Repr

def WmoParser.totalLines (p : WmoParser) : Int := p.fileLines.length

def WmoParser.remainingLines (p : WmoParser) : Int := p.fileLines.length - p.position

/-- `WmoParser.peek` (lines 77-82): the line at `position + count`, or none
when that index is out of bounds. -/
def WmoParser.peek (p : WmoParser) (count : Int) : Option String :=
  let linePos := p.position + count
  if 0 ≤ linePos ∧ linePos < p.fileLines.length then p.fileLines.get? linePos.toNat else none

/-- `peek` as a method call on the cursor: it reads but performs no
assignment, so the state component of the result is the input state. -/
def WmoParser.peekCall (p : WmoParser) (count : Int) : Option String × WmoParser :=
  (p.peek count, p)

/-- `WmoParser.skipEmpty` (lines 97-101) with explicit fuel. The loop advances
only while `peek` returns a line (so `position < fileLines.length`) whose trim
is empty, and each step increments `position`, so at most
`fileLines.length` steps run and fuel `fileLines.length + 1` is never
exhausted. -/
def WmoParser.skipEmptyAux : Nat → WmoParser → WmoParser
  | 0, p => p
  | n + 1, p =>
    if (p.peek 0).map jsTrim = some "" then
      WmoParser.skipEmptyAux n { p with position := p.position + 1 }
    else p

def WmoParser.skipEmpty (p : WmoParser) : WmoParser :=
  WmoParser.skipEmptyAux (p.fileLines.length + 1) p

/-- `WmoParser.extract` (lines 103-125). The regular-expression argument is
abstracted as a `matcher` returning the match data on success; `extract`
itself only branches on match success. The current line (trimmed when `trim`)
that is absent or empty is falsy (`if (!line) return`), yielding no match and
no movement; on a match the position advances by one and trailing blank lines
are skipped when `skipIfEmpty`. -/
def WmoParser.extract {M : Type} (p : WmoParser) (matcher : String → Option M)
    (trim : Bool) (skipIfEmpty : Bool) : Option M × WmoParser :=
  let line := if trim then (p.peek 0).map jsTrim else p.peek 0
  match line with
  | none => (none, p)
  | some l =>
    if l = "" then (none, p)
    else
      match matcher l with
      | none => (none, p)
      | some m =>
        let p1 : WmoParser := { p with position := p.position + 1 }
        (some m, if skipIfEmpty then p1.skipEmpty else p1)

/-- `WmoParser.extractAll` (lines 127-149): like `extract` but the matcher is
`matchAll`, and an empty match list counts as no match. -/
def WmoParser.extractAll {M : Type} (p : WmoParser) (matcher : String → List M)
    (trim : Bool) (skipIfEmpty : Bool) : Option (List M) × WmoParser :=
  let line := if trim then (p.peek 0).map jsTrim else p.peek 0
  match line with
  | none => (none, p)
  | some l =>
    if l = "" then (none, p)
    else
      let ms := matcher l
      if ms.isEmpty then (none, p)
      else
        let p1 : WmoParser := { p with position := p.position + 1 }
        (some ms, if skipIfEmpty then p1.skipEmpty else p1)

/-- `SeekOrigin` (lines 37-41); `fromEnd` embeds the member named `end`. -/
inductive SeekOrigin where
  | start
  | current
  | fromEnd
  deriving DecidableEq, Repr

def seekOriginName : SeekOrigin → String
  | .start => "start"
  | .current => "current"
  | .fromEnd => "end"

/-- The bounds-checked target `newPos` of `WmoParser.seek` (lines 87-91). -/
def seekTarget (p : WmoParser) (count : Int) (origin : SeekOrigin) : Int :=
  match origin with
  | .start => count
  | .fromEnd => p.totalLines + count
  | .current => p.position + count

/-- `WmoParser.seek` (lines 84-95): raises when `newPos < 0 || newPos >=
totalCount`; otherwise executes `this.position += count` (the origin-computed
`newPos` is used only in the bounds check, not in the update). -/
def WmoParser.seek (p : WmoParser) (count : Int) (origin : SeekOrigin) :
    Except JsErr WmoParser :=
  let newPos := seekTarget p count origin
  if newPos < 0 ∨ p.totalLines ≤ newPos then
    .error (wmoErrorRaise (.arr p.fileLines) p.position
      ("Unable to seek " ++ toString count ++ " from " ++ seekOriginName origin ++
        ": Out of Bounds"))
  else
    .ok { p with position := p.position + count }

def exceptIsOk {α : Type} (e : Except JsErr α) : Bool :=
  match e with
  | .ok _ => true
  | .error _ => false

/-- The `WmoParser` constructor (lines 50-63): strip the first start-of-header
control character, trim, raise on empty (with `fileLines` still `undefined`),
else split into lines with the position at 0. -/
def wmoParserInit (wmoText : String) : Except JsErr WmoParser :=
  let trimmed := jsTrim (String.mk (replaceFirstList ['\x01'] [] wmoText.data))
  if trimmed.length ≤ 0 then
    .error (wmoErrorRaise .undef 0 "Provided WMO Text was empty")
  else
    .ok { fileLines := splitLines trimmed, position := 0 }

/-! ## Cursor invariants (claims C6, C7, C9) -/

lemma WmoParser.peek_some_bounds {p : WmoParser} {c : Int} {l : String}
    (h : p.peek c = some l) :
    0 ≤ p.position + c ∧ p.position + c < p.fileLines.length := by
  simp only [WmoParser.peek] at h
  split at h
  · next hc => exact hc
  · exact absurd h (by simp)

lemma WmoParser.skipEmptyAux_fileLines (n : Nat) (p : WmoParser) :
    (WmoParser.skipEmptyAux n p).fileLines = p.fileLines := by
  induction n generalizing p with
  | zero => rfl
  | succ n ih =>
    simp only [WmoParser.skipEmptyAux]
    split
    · exact ih _
    · rfl

lemma WmoParser.skipEmptyAux_pos_le (n : Nat) (p : WmoParser) :
    p.position ≤ (WmoParser.skipEmptyAux n p).position := by
  induction n generalizing p with
  | zero => exact le_refl _
  | succ n ih =>
    simp only [WmoParser.skipEmptyAux]
    split
    · have h := ih { p with position := p.position + 1 }
      simp only at h
      omega
    · exact le_refl _

lemma WmoParser.skipEmptyAux_pos_bound (n : Nat) (p : WmoParser)
    (h : p.position ≤ (p.fileLines.length : Int)) :
    (WmoParser.skipEmptyAux n p).position ≤ (p.fileLines.length : Int) := by
  induction n generalizing p with
  | zero => exact h
  | succ n ih =>
    simp only [WmoParser.skipEmptyAux]
    split
    · next hc =>
      rcases Option.map_eq_some'.mp hc with ⟨l, hl, -⟩
      have hb := WmoParser.peek_some_bounds hl
      have h' := ih { p with position := p.position + 1 } (by simp; omega)
      simpa using h'
    · exact h

lemma WmoParser.skipEmptyAux_pos_nonneg (n : Nat) (p : WmoParser)
    (h : 0 ≤ p.position) :
    0 ≤ (WmoParser.skipEmptyAux n p).position :=
  le_trans h (WmoParser.skipEmptyAux_pos_le n p)

lemma WmoParser.advance_then_skip (p : WmoParser) (k : Bool) :
    ((if k then WmoParser.skipEmpty { p with position := p.position + 1 }
        else ({ p with position := p.position + 1 } : WmoParser)).fileLines
      = p.fileLines) ∧
    (p.position + 1 ≤
      (if k then WmoParser.skipEmpty { p with position := p.position + 1 }
        else ({ p with position := p.position + 1 } : WmoParser)).position) ∧
    (p.position + 1 ≤ (p.fileLines.length : Int) →
      (if k then WmoParser.skipEmpty { p with position := p.position + 1 }
        else ({ p with position := p.position + 1 } : WmoParser)).position
        ≤ (p.fileLines.length : Int)) := by
  cases k with
  | false => simp
  | true =>
    simp only [if_pos, WmoParser.skipEmpty]
    refine ⟨?_, ?_, ?_⟩
    · simpa using WmoParser.skipEmptyAux_fileLines _ { p with position := p.position + 1 }
    · simpa using WmoParser.skipEmptyAux_pos_le _ { p with position := p.position + 1 }
    · intro hle
      simpa using WmoParser.skipEmptyAux_pos_bound _
        { p with position := p.position + 1 } (by simpa using hle)

lemma WmoParser.extract_eq {M : Type} (p : WmoParser) (m : String → Option M)
    (t k : Bool) :
    p.extract m t k = (none, p) ∨
      ((∃ v, p.extract m t k =
          (some v, if k then WmoParser.skipEmpty { p with position := p.position + 1 }
            else { p with position := p.position + 1 })) ∧
        0 ≤ p.position ∧ p.position < p.fileLines.length) := by
  rcases hline : (if t then (p.peek 0).map jsTrim else p.peek 0) with - | l
  · left
    simp only [WmoParser.extract, hline]
  · have hpk : ∃ l0, p.peek 0 = some l0 := by
      cases t with
      | false => exact ⟨l, by simpa using hline⟩
      | true =>
        rcases Option.map_eq_some'.mp (by simpa using hline) with ⟨l0, h0, -⟩
        exact ⟨l0, h0⟩
    rcases hpk with ⟨l0, hl0⟩
    have hb := WmoParser.peek_some_bounds hl0
    simp only [WmoParser.extract, hline]
    by_cases hl : l = ""
    · left
      rw [if_pos hl]
    · rw [if_neg hl]
      cases hm : m l with
      | none => left; rfl
      | some v => exact Or.inr ⟨⟨v, rfl⟩, by omega, by omega⟩

lemma WmoParser.extractAll_eq {M : Type} (p : WmoParser) (m : String → List M)
    (t k : Bool) :
    p.extractAll m t k = (none, p) ∨
      ((∃ vs, p.extractAll m t k =
          (some vs, if k then WmoParser.skipEmpty { p with position := p.position + 1 }
            else { p with position := p.position + 1 })) ∧
        0 ≤ p.position ∧ p.position < p.fileLines.length) := by
  rcases hline : (if t then (p.peek 0).map jsTrim else p.peek 0) with - | l
  · left
    simp only [WmoParser.extractAll, hline]
  · have hpk : ∃ l0, p.peek 0 = some l0 := by
      cases t with
      | false => exact ⟨l, by simpa using hline⟩
      | true =>
        rcases Option.map_eq_some'.mp (by simpa using hline) with ⟨l0, h0, -⟩
        exact ⟨l0, h0⟩
    rcases hpk with ⟨l0, hl0⟩
    have hb := WmoParser.peek_some_bounds hl0
    simp only [WmoParser.extractAll, hline]
    by_cases hl : l = ""
    · left
      rw [if_pos hl]
    · rw [if_neg hl]
      by_cases hm : (m l).isEmpty
      · left
        rw [if_pos hm]
      · rw [if_neg hm]
        exact Or.inr ⟨⟨m l, rfl⟩, by omega, by omega⟩

lemma WmoParser.extract_cases {M : Type} (p : WmoParser) (m : String → Option M)
    (t k : Bool) :
    ((p.extract m t k).1 = none ∧ (p.extract m t k).2 = p) ∨
      ((p.extract m t k).2.fileLines = p.fileLines ∧
        p.position + 1 ≤ (p.extract m t k).2.position ∧
        (0 ≤ p.position → 0 ≤ (p.extract m t k).2.position) ∧
        (p.position < p.fileLines.length →
          (p.extract m t k).2.position ≤ (p.fileLines.length : Int))) := by
  rcases WmoParser.extract_eq p m t k with h | ⟨⟨v, hv⟩, h0, hlt⟩
  · left
    rw [h]
    exact ⟨rfl, rfl⟩
  · right
    rw [hv]
    have hadv := WmoParser.advance_then_skip p k
    exact ⟨hadv.1, hadv.2.1, fun hp => le_trans (by omega) hadv.2.1,
      fun _ => hadv.2.2 (by omega)⟩

lemma WmoParser.extractAll_cases {M : Type} (p : WmoParser) (m : String → List M)
    (t k : Bool) :
    ((p.extractAll m t k).1 = none ∧ (p.extractAll m t k).2 = p) ∨
      ((p.extractAll m t k).2.fileLines = p.fileLines ∧
        p.position + 1 ≤ (p.extractAll m t k).2.position ∧
        (0 ≤ p.position → 0 ≤ (p.extractAll m t k).2.position) ∧
        (p.position < p.fileLines.length →
          (p.extractAll m t k).2.position ≤ (p.fileLines.length : Int))) := by
  rcases WmoParser.extractAll_eq p m t k with h | ⟨⟨vs, hv⟩, h0, hlt⟩
  · left
    rw [h]
    exact ⟨rfl, rfl⟩
  · right
    rw [hv]
    have hadv := WmoParser.advance_then_skip p k
    exact ⟨hadv.1, hadv.2.1, fun hp => le_trans (by omega) hadv.2.1,
      fun _ => hadv.2.2 (by omega)⟩

/-- A call to one of the cursor's read primitives: `extract`, `extractAll`
(each with an arbitrary pattern matcher and flag pair) or `peek`. -/
inductive CursorOp where
  | extractOp (matcher : String → Option Unit) (trim skipIfEmpty : Bool)
  | extractAllOp (matcher : String → List Unit) (trim skipIfEmpty : Bool)
  | peekOp (count : Int)

/-- The cursor state after one primitive call. -/
def CursorOp.apply : CursorOp → WmoParser → WmoParser
  | .extractOp m t k, p => (p.extract m t k).2
  | .extractAllOp m t k, p => (p.extractAll m t k).2
  | .peekOp c, p => (p.peekCall c).2

/-- The cursor state after a sequence of primitive calls. -/
def runCursorOps (ops : List CursorOp) (p : WmoParser) : WmoParser :=
  ops.foldl (fun q o => o.apply q) p

lemma CursorOp.apply_position_le (o : CursorOp) (p : WmoParser) :
    p.position ≤ (o.apply p).position := by
  cases o with
  | extractOp m t k =>
    rcases WmoParser.extract_cases p m t k with ⟨-, h⟩ | ⟨-, h, -⟩
    · simp only [CursorOp.apply, h]
      exact le_refl _
    · simp only [CursorOp.apply]
      omega
  | extractAllOp m t k =>
    rcases WmoParser.extractAll_cases p m t k with ⟨-, h⟩ | ⟨-, h, -⟩
    · simp only [CursorOp.apply, h]
      exact le_refl _
    · simp only [CursorOp.apply]
      omega
  | peekOp c => exact le_refl _

/-- C6: over any sequence of `extract`/`extractAll`/`peek` calls the read
position is monotonically non-decreasing; each single `extract`/`extractAll`
call either returns no match and leaves the whole cursor state unchanged or
strictly advances the position; and `peek` never mutates the state (only the
separate `seek` operation can move the position backwards). -/
theorem cursor_position_monotone :
    (∀ (ops : List CursorOp) (p : WmoParser),
      p.position ≤ (runCursorOps ops p).position) ∧
    (∀ (M : Type) (m : String → Option M) (t k : Bool) (p : WmoParser),
      ((p.extract m t k).1 = none ∧ (p.extract m t k).2 = p) ∨
        p.position < (p.extract m t k).2.position) ∧
    (∀ (M : Type) (m : String → List M) (t k : Bool) (p : WmoParser),
      ((p.extractAll m t k).1 = none ∧ (p.extractAll m t k).2 = p) ∨
        p.position < (p.extractAll m t k).2.position) ∧
    (∀ (c : Int) (p : WmoParser), (p.peekCall c).2 = p) := by
  refine ⟨?_, ?_, ?_, fun c p => rfl⟩
  · intro ops
    induction ops with
    | nil => exact fun p => le_refl _
    | cons o rest ih =>
      intro p
      exact le_trans (CursorOp.apply_position_le o p) (ih (o.apply p))
  · intro M m t k p
    rcases WmoParser.extract_cases p m t k with h | ⟨-, h, -⟩
    · exact Or.inl h
    · exact Or.inr (by omega)
  · intro M m t k p
    rcases WmoParser.extractAll_cases p m t k with h | ⟨-, h, -⟩
    · exact Or.inl h
    · exact Or.inr (by omega)

/-- Cursor used by the C7 counterexample: two lines, position 1. -/
def seekCexParser : WmoParser :=
  { fileLines := ["152", "NOUS42 KNHC 261358"], position := 1 }

/-- C7 counterexample: on a two-line cursor at position 1, a current-origin
`seek(1)` targets position 2, which equals `lineCount` and so lies inside the
claim's inclusive range `[0, lineCount]` (end-of-input); the claim says such a
seek succeeds without raising, but the code's bounds check
`newPos < 0 || newPos >= totalCount` raises on it. -/
theorem seek_at_lineCount_raises :
    seekTarget seekCexParser 1 SeekOrigin.current = 2 ∧
    (0 : Int) ≤ 2 ∧ (2 : Int) ≤ seekCexParser.totalLines ∧
    exceptIsOk (seekCexParser.seek 1 SeekOrigin.current) = false := by
  refine ⟨rfl, by decide, by decide, rfl⟩

/-- C7 as amended: every `extract`/`extractAll` call keeps a position that
starts inside `[0, lineCount]` inside `[0, lineCount]`; `seek` raises exactly
when the origin-computed target `newPos` falls outside `[0, lineCount - 1]`
(so a seek whose target equals `lineCount` raises even though that position
means end-of-input); and a seek that does not raise changes the position by
its count argument — hence a successful current-origin seek lands in
`[0, lineCount - 1]`, while for the start/end origins the updated position is
`position + count` rather than the checked target, and may leave the range. -/
theorem seek_bounds_amended (p : WmoParser) (c : Int) (o : SeekOrigin)
    (h0 : 0 ≤ p.position) (hn : p.position ≤ p.totalLines) :
    (exceptIsOk (p.seek c o) = false ↔
      (seekTarget p c o < 0 ∨ p.totalLines ≤ seekTarget p c o)) ∧
    (∀ q, p.seek c o = .ok q → q.position = p.position + c) ∧
    (o = SeekOrigin.current → ∀ q, p.seek c o = .ok q →
      0 ≤ q.position ∧ q.position < p.totalLines) ∧
    (∀ (M : Type) (m : String → Option M) (t k : Bool),
      0 ≤ (p.extract m t k).2.position ∧
        (p.extract m t k).2.position ≤ p.totalLines) ∧
    (∀ (M : Type) (m : String → List M) (t k : Bool),
      0 ≤ (p.extractAll m t k).2.position ∧
        (p.extractAll m t k).2.position ≤ p.totalLines) := by
  refine ⟨?_, ?_, ?_, ?_, ?_⟩
  · simp only [WmoParser.seek]
    split
    · next hc => simpa [exceptIsOk] using hc
    · next hc => simpa [exceptIsOk] using hc
  · intro q hq
    simp only [WmoParser.seek] at hq
    split at hq
    · exact absurd hq (by simp)
    · cases hq
      rfl
  · rintro rfl q hq
    simp only [WmoParser.seek] at hq
    split at hq
    · exact absurd hq (by simp)
    · next hc =>
      cases hq
      simp only [seekTarget, WmoParser.totalLines] at hc
      show 0 ≤ p.position + c ∧ p.position + c < (p.fileLines.length : Int)
      omega
  · intro M m t k
    rcases WmoParser.extract_eq p m t k with h | ⟨-, -, hlt⟩
    · rw [h]
      exact ⟨h0, hn⟩
    · rcases WmoParser.extract_cases p m t k with ⟨-, h⟩ | ⟨-, -, hge, hle⟩
      · rw [h]
        exact ⟨h0, hn⟩
      · exact ⟨hge h0, hle hlt⟩
  · intro M m t k
    rcases WmoParser.extractAll_eq p m t k with h | ⟨-, -, hlt⟩
    · rw [h]
      exact ⟨h0, hn⟩
    · rcases WmoParser.extractAll_cases p m t k with ⟨-, h⟩ | ⟨-, -, hge, hle⟩
      · rw [h]
        exact ⟨h0, hn⟩
      · exact ⟨hge h0, hle hlt⟩

/-- Cursor used by the C7 witness. -/
def seekWitParser : WmoParser := { fileLines := ["152"], position := 0 }

/-- Witness for the amended C7 statement at a concrete one-line cursor. -/
theorem seek_bounds_amended_witness :
    (exceptIsOk (seekWitParser.seek 0 SeekOrigin.current) = false ↔
      (seekTarget seekWitParser 0 SeekOrigin.current < 0 ∨
        seekWitParser.totalLines ≤ seekTarget seekWitParser 0 SeekOrigin.current)) ∧
    (∀ q, seekWitParser.seek 0 SeekOrigin.current = .ok q →
      q.position = seekWitParser.position + 0) ∧
    (SeekOrigin.current = SeekOrigin.current →
      ∀ q, seekWitParser.seek 0 SeekOrigin.current = .ok q →
        0 ≤ q.position ∧ q.position < seekWitParser.totalLines) ∧
    (∀ (M : Type) (m : String → Option M) (t k : Bool),
      0 ≤ (seekWitParser.extract m t k).2.position ∧
        (seekWitParser.extract m t k).2.position ≤ seekWitParser.totalLines) ∧
    (∀ (M : Type) (m : String → List M) (t k : Bool),
      0 ≤ (seekWitParser.extractAll m t k).2.position ∧
        (seekWitParser.extractAll m t k).2.position ≤ seekWitParser.totalLines) :=
  seek_bounds_amended seekWitParser 0 SeekOrigin.current (by decide) (by decide)

/-- C9 (code bug evaluated at the failing input): on input that is empty after
stripping the start-of-header character and trimming, the constructor calls
`this.error('Provided WMO Text was empty')` while `this.fileLines` is still
`undefined`; `error`'s guard tests `=== null`, which `undefined` fails, so the
context loop dereferences `lines.length` on `undefined` and the decode
surfaces a `TypeError` — not the `WmoParseError` ParseFailure kind the claim
requires. -/
theorem empty_input_raises_typeError :
    wmoParserInit "" =
      .error (JsErr.typeError "Cannot read properties of undefined (reading 'length')") ∧
    wmoParserInit "\x01 \r\n " =
      .error (JsErr.typeError "Cannot read properties of undefined (reading 'length')") ∧
    (JsErr.typeError "Cannot read properties of undefined (reading 'length')").isParseFailure
      = false := by
  refine ⟨rfl, rfl, rfl⟩

/-! ## WMO abbreviated-heading decoding (src/WmoHeader.ts)

The heading line is matched (after the cursor's trim) against
`/^(\w\w\w\w\d\d)\s+(\w\w\w\w)\s+(\d\d)(\d\d)(\d\d)(?:\s+(?:(RR|CC|AA)([A-X])|P([A-Z])([A-Z])))?$/`.
Every token of this regex has a fixed width or is a `\s+` run whose follower
starts with a non-space character, so the regex is matched by a deterministic
left-to-right parser with no backtracking; the parser below is that regex. -/

/-- JavaScript `toUpperCase` on the ASCII fragment: map `a`-`z` to `A`-`Z`. -/
def asciiUpper (c : Char) : Char :=
  if 'a' ≤ c && c ≤ 'z' then Char.ofNat (c.toNat - 32) else c

def strUpper (s : String) : String := String.mk (s.data.map asciiUpper)

/-- A fixed-width character-class run (`\w\w\w\w`, `\d\d`, ...): exactly `n`
characters satisfying `p`, returning the captured run and the rest. -/
def takeClass (p : Char → Bool) : Nat → List Char → Option (List Char × List Char)
  | 0, cs => some ([], cs)
  | _ + 1, [] => none
  | n + 1, c :: cs =>
    if p c then (takeClass p n cs).map (fun g => (c :: g.1, g.2)) else none

/-- A `\s+` run: at least one space character, consumed greedily. In the
heading regex every token after a `\s+` begins with a non-space character, so
the greedy match never needs to give characters back. -/
def takeSpaces1 : List Char → Option (List Char)
  | [] => none
  | c :: cs => if isJsSpace c then some (cs.dropWhile isJsSpace) else none

/-- Capture groups of the abbreviated-heading regex, `none` for a group whose
alternative did not participate in the match (as in the JS match array). -/
structure HeadingGroups where
  g1 : String
  g2 : String
  g3 : String
  g4 : String
  g5 : String
  g6 : Option String
  g7 : Option String
  g8 : Option String
  g9 : Option String
  deriving DecidableEq, Repr

/-- The inner alternation `(RR|CC|AA)([A-X])|P([A-Z])([A-Z])` on the three
characters that must close the line; the first alternative is tried first. -/
def trailerAlt (x y z : Char) :
    Option (Option String × Option String × Option String × Option String) :=
  if ((x = 'R' ∧ y = 'R') ∨ (x = 'C' ∧ y = 'C') ∨ (x = 'A' ∧ y = 'A')) ∧
      ('A' ≤ z ∧ z ≤ 'X') then
    some (some (String.mk [x, y]), some (String.mk [z]), none, none)
  else if x = 'P' ∧ ('A' ≤ y ∧ y ≤ 'Z') ∧ ('A' ≤ z ∧ z ≤ 'Z') then
    some (none, none, some (String.mk [y]), some (String.mk [z]))
  else none

/-- The optional trailing flag group
`(?:\s+(?:(RR|CC|AA)([A-X])|P([A-Z])([A-Z])))?$`: either the line ends here,
or one space-separated three-letter group closes the line. -/
def parseTrailer : List Char →
    Option (Option String × Option String × Option String × Option String)
  | [] => some (none, none, none, none)
  | c :: cs => do
    let rest ← takeSpaces1 (c :: cs)
    match rest with
    | [x, y, z] => trailerAlt x y z
    | _ => none

/-- The abbreviated-heading regex of `WmoHeader` (WmoHeader.ts line 59). -/
def parseAbbrevHeading (line : String) : Option HeadingGroups := do
  let (g1a, r1) ← takeClass isJsWord 4 line.data
  let (g1b, r2) ← takeClass isJsDigit 2 r1
  let r3 ← takeSpaces1 r2
  let (g2, r4) ← takeClass isJsWord 4 r3
  let r5 ← takeSpaces1 r4
  let (g3, r6) ← takeClass isJsDigit 2 r5
  let (g4, r7) ← takeClass isJsDigit 2 r6
  let (g5, r8) ← takeClass isJsDigit 2 r7
  let (g6, g7, g8, g9) ← parseTrailer r8
  pure { g1 := String.mk (g1a ++ g1b), g2 := String.mk g2, g3 := String.mk g3,
         g4 := String.mk g4, g5 := String.mk g5, g6 := g6, g7 := g7, g8 := g8, g9 := g9 }

/-- `IWmoHeaderSegment`. -/
structure WmoHeaderSegment where
  major : Option String
  minor : Option String
  last : Bool
  deriving DecidableEq, Repr

/-- The header fields assigned by the `WmoHeader` constructor from the heading
match (the optional sequence line and the `WmoDate` resolution are separate
stages of the constructor, modelled with the decode pipeline). -/
structure WmoHeaderRec where
  designator : String
  station : String
  day : String
  hour : String
  minute : String
  delay : Option String
  correction : Option String
  amendment : Option String
  segment : Option WmoHeaderSegment
  deriving DecidableEq, Repr

/-- WmoHeader.ts lines 63-76: uppercase the designator and station, then the
dynamic-field assignment
`this[g6 === 'RR' ? 'delay' : g6 === 'CC' ? 'correction' : 'amendment'] = g7`
when group 6 matched, else the segment record when group 8 matched. -/
def mkHeaderFields (g : HeadingGroups) : WmoHeaderRec :=
  let base : WmoHeaderRec :=
    { designator := strUpper g.g1, station := strUpper g.g2,
      day := g.g3, hour := g.g4, minute := g.g5,
      delay := none, correction := none, amendment := none, segment := none }
  match g.g6 with
  | some t =>
    if t = "RR" then { base with delay := g.g7 }
    else if t = "CC" then { base with correction := g.g7 }
    else { base with amendment := g.g7 }
  | none =>
    match g.g8 with
    | some maj =>
      { base with segment := some { major := some maj, minor := g.g9, last := maj == "Z" } }
    | none => base

/-- Number of the four mutually-exclusive trailing fields that are set. -/
def headerSetCount (h : WmoHeaderRec) : Nat :=
  (if h.delay.isSome then 1 else 0) + (if h.correction.isSome then 1 else 0) +
    (if h.amendment.isSome then 1 else 0) + (if h.segment.isSome then 1 else 0)

/-- C8: for every line accepted by the heading decoder, at most one of the
delay, correction, amendment and segment fields is set: group 6 and group 8
come from disjoint alternatives of one optional group, and the constructor's
if/else-if chain assigns only one of the four fields. -/
theorem header_flags_mutually_exclusive (line : String) (g : HeadingGroups)
    (_h : parseAbbrevHeading line = some g) :
    headerSetCount (mkHeaderFields g) ≤ 1 := by
  unfold mkHeaderFields
  cases hg6 : g.g6 with
  | some t =>
    by_cases h1 : t = "RR"
    · simp only [h1, if_pos rfl, headerSetCount]
      cases g.g7 <;> simp
    · by_cases h2 : t = "CC"
      · simp only [if_neg h1, h2, if_pos rfl, headerSetCount]
        cases g.g7 <;> simp
      · simp only [if_neg h1, if_neg h2, headerSetCount]
        cases g.g7 <;> simp
  | none =>
    cases hg8 : g.g8 with
    | some maj => simp [headerSetCount]
    | none => simp [headerSetCount]

/-- Heading groups of the witness line `NOUS42 KNHC 261358 CCA`. -/
def c8Groups : HeadingGroups :=
  { g1 := "NOUS42", g2 := "KNHC", g3 := "26", g4 := "13", g5 := "58",
    g6 := some "CC", g7 := some "A", g8 := none, g9 := none }

/-- Witness for C8: the correction-marked heading `NOUS42 KNHC 261358 CCA`. -/
theorem header_flags_mutually_exclusive_witness :
    headerSetCount (mkHeaderFields c8Groups) ≤ 1 :=
  header_flags_mutually_exclusive "NOUS42 KNHC 261358 CCA" c8Groups (by rfl)

/-! ## Case-insensitivity of the heading decode (claim C10) -/

lemma char_toNat_inj {a b : Char} (h : a.toNat = b.toNat) : a = b :=
  Char.ext (UInt32.ext h)

lemma char_toNat_ofNat_lt {n : Nat} (h : n < 55296) : (Char.ofNat n).toNat = n := by
  have hv : Nat.isValidChar n := Or.inl h
  simp [Char.ofNat, hv]
  rfl

lemma asciiUpper_of_not_lower {c : Char} (h : ¬('a' ≤ c ∧ c ≤ 'z')) : asciiUpper c = c := by
  unfold asciiUpper
  rw [if_neg (by simpa using h)]

lemma asciiUpper_toNat_of_lower {c : Char} (h1 : 'a' ≤ c) (h2 : c ≤ 'z') :
    (asciiUpper c).toNat = c.toNat - 32 := by
  have hn2 : c.toNat ≤ 122 := Char.le_def.mp h2
  unfold asciiUpper
  rw [if_pos (by simp [h1, h2])]
  exact char_toNat_ofNat_lt (by omega)

lemma isJsSpace_eq_false_of_ge {c : Char} (h : 48 ≤ c.toNat) : isJsSpace c = false := by
  simp only [isJsSpace, Bool.or_eq_false_iff, decide_eq_false_iff_not]
  refine ⟨⟨⟨⟨⟨?_, ?_⟩, ?_⟩, ?_⟩, ?_⟩, ?_⟩ <;>
    (intro hc; subst hc; exact absurd h (by decide))

lemma isJsSpace_asciiUpper (c : Char) : isJsSpace (asciiUpper c) = isJsSpace c := by
  by_cases h : 'a' ≤ c ∧ c ≤ 'z'
  · have hn1 : 97 ≤ c.toNat := Char.le_def.mp h.1
    have ht := asciiUpper_toNat_of_lower h.1 h.2
    have hn2 : c.toNat ≤ 122 := Char.le_def.mp h.2
    rw [isJsSpace_eq_false_of_ge (by omega), isJsSpace_eq_false_of_ge (by omega)]
  · rw [asciiUpper_of_not_lower h]

lemma isJsDigit_toNat {c : Char} : isJsDigit c = true ↔ 48 ≤ c.toNat ∧ c.toNat ≤ 57 := by
  simp only [isJsDigit, Bool.and_eq_true, decide_eq_true_eq, Char.le_def]
  exact Iff.rfl

lemma isJsWord_toNat {c : Char} : isJsWord c = true ↔
    (48 ≤ c.toNat ∧ c.toNat ≤ 57) ∨ (97 ≤ c.toNat ∧ c.toNat ≤ 122) ∨
      (65 ≤ c.toNat ∧ c.toNat ≤ 90) ∨ c.toNat = 95 := by
  simp only [isJsWord, isJsDigit, Bool.or_eq_true, Bool.and_eq_true, decide_eq_true_eq,
    Char.le_def]
  constructor
  · rintro (((h | h) | h) | h)
    · exact Or.inl h
    · exact Or.inr (Or.inl h)
    · exact Or.inr (Or.inr (Or.inl h))
    · exact Or.inr (Or.inr (Or.inr (by rw [h]; decide)))
  · rintro (h | h | h | h)
    · exact Or.inl (Or.inl (Or.inl h))
    · exact Or.inl (Or.inl (Or.inr h))
    · exact Or.inl (Or.inr h)
    · exact Or.inr (char_toNat_inj (h.trans (by decide)))

lemma isJsWord_asciiUpper (c : Char) : isJsWord (asciiUpper c) = isJsWord c := by
  by_cases h : 'a' ≤ c ∧ c ≤ 'z'
  · have hn1 : 97 ≤ c.toNat := Char.le_def.mp h.1
    have hn2 : c.toNat ≤ 122 := Char.le_def.mp h.2
    have ht := asciiUpper_toNat_of_lower h.1 h.2
    rw [isJsWord_toNat.mpr (Or.inr (Or.inr (Or.inl ⟨by omega, by omega⟩))),
      isJsWord_toNat.mpr (Or.inr (Or.inl ⟨by omega, by omega⟩))]
  · rw [asciiUpper_of_not_lower h]

lemma isJsDigit_asciiUpper (c : Char) : isJsDigit (asciiUpper c) = isJsDigit c := by
  by_cases h : 'a' ≤ c ∧ c ≤ 'z'
  · have hn1 : 97 ≤ c.toNat := Char.le_def.mp h.1
    have hn2 : c.toNat ≤ 122 := Char.le_def.mp h.2
    have ht := asciiUpper_toNat_of_lower h.1 h.2
    have h1 : isJsDigit (asciiUpper c) = false := by
      cases hd : isJsDigit (asciiUpper c) with
      | false => rfl
      | true => exact absurd (isJsDigit_toNat.mp hd) (by omega)
    have h2 : isJsDigit c = false := by
      cases hd : isJsDigit c with
      | false => rfl
      | true => exact absurd (isJsDigit_toNat.mp hd) (by omega)
    rw [h1, h2]
  · rw [asciiUpper_of_not_lower h]

lemma asciiUpper_eq_of_digit {c : Char} (h : isJsDigit c = true) : asciiUpper c = c := by
  have hd := isJsDigit_toNat.mp h
  exact asciiUpper_of_not_lower (fun hl => by
    have h97 : (97 : Nat) ≤ c.toNat := Char.le_def.mp hl.1
    omega)

lemma asciiUpper_eq_of_upper {c : Char} (_h1 : 'A' ≤ c) (h2 : c ≤ 'Z') : asciiUpper c = c := by
  have hn : c.toNat ≤ 90 := Char.le_def.mp h2
  exact asciiUpper_of_not_lower (fun hl => by
    have h97 : (97 : Nat) ≤ c.toNat := Char.le_def.mp hl.1
    omega)

lemma asciiUpper_idem (c : Char) : asciiUpper (asciiUpper c) = asciiUpper c := by
  by_cases h : 'a' ≤ c ∧ c ≤ 'z'
  · have hn1 : 97 ≤ c.toNat := Char.le_def.mp h.1
    have hn2 : c.toNat ≤ 122 := Char.le_def.mp h.2
    have ht := asciiUpper_toNat_of_lower h.1 h.2
    exact asciiUpper_of_not_lower (fun hl => by
      have h97 : (97 : Nat) ≤ (asciiUpper c).toNat := Char.le_def.mp hl.1
      omega)
  · rw [asciiUpper_of_not_lower h, asciiUpper_of_not_lower h]

lemma map_asciiUpper_of_digits : ∀ {g : List Char},
    (∀ c ∈ g, isJsDigit c = true) → g.map asciiUpper = g
  | [], _ => rfl
  | c :: g, h => by
    simp only [List.map_cons]
    rw [asciiUpper_eq_of_digit (h c (by simp)),
      map_asciiUpper_of_digits (fun d hd => h d (by simp [hd]))]

lemma takeClass_map_upper {p : Char → Bool} (hp : ∀ c, p (asciiUpper c) = p c) :
    ∀ (n : Nat) (cs g r : List Char), takeClass p n cs = some (g, r) →
      takeClass p n (cs.map asciiUpper) = some (g.map asciiUpper, r.map asciiUpper) := by
  intro n
  induction n with
  | zero =>
    intro cs g r h
    simp only [takeClass, Option.some.injEq, Prod.mk.injEq] at h
    obtain ⟨hg, hr⟩ := h
    subst hg
    subst hr
    rfl
  | succ n ih =>
    intro cs g r h
    cases cs with
    | nil => exact absurd h (by simp [takeClass])
    | cons c cs' =>
      simp only [takeClass] at h
      by_cases hc : p c
      · rw [if_pos hc] at h
        cases hrec : takeClass p n cs' with
        | none => rw [hrec] at h; exact absurd h (by simp)
        | some pr =>
          obtain ⟨g', r'⟩ := pr
          rw [hrec] at h
          simp only [Option.map_some', Option.some.injEq, Prod.mk.injEq] at h
          obtain ⟨hg, hr⟩ := h
          subst hg
          subst hr
          simp only [List.map_cons, takeClass]
          rw [if_pos (by rw [hp]; exact hc), ih cs' g' r' hrec]
          rfl
      · rw [if_neg hc] at h
        exact absurd h (by simp)

lemma takeClass_sat {p : Char → Bool} :
    ∀ (n : Nat) (cs g r : List Char), takeClass p n cs = some (g, r) →
      ∀ c ∈ g, p c = true := by
  intro n
  induction n with
  | zero =>
    intro cs g r h
    simp only [takeClass, Option.some.injEq, Prod.mk.injEq] at h
    obtain ⟨hg, -⟩ := h
    subst hg
    intro c hc
    exact absurd hc (by simp)
  | succ n ih =>
    intro cs g r h
    cases cs with
    | nil => exact absurd h (by simp [takeClass])
    | cons c cs' =>
      simp only [takeClass] at h
      by_cases hc : p c
      · rw [if_pos hc] at h
        cases hrec : takeClass p n cs' with
        | none => rw [hrec] at h; exact absurd h (by simp)
        | some pr =>
          obtain ⟨g', r'⟩ := pr
          rw [hrec] at h
          simp only [Option.map_some', Option.some.injEq, Prod.mk.injEq] at h
          obtain ⟨hg, -⟩ := h
          subst hg
          intro d hd
          rcases List.mem_cons.mp hd with rfl | hd'
          · exact hc
          · exact ih cs' g' r' hrec d hd'
      · rw [if_neg hc] at h
        exact absurd h (by simp)

lemma takeSpaces1_map_upper :
    ∀ (cs r : List Char), takeSpaces1 cs = some r →
      takeSpaces1 (cs.map asciiUpper) = some (r.map asciiUpper) := by
  intro cs r h
  cases cs with
  | nil => exact absurd h (by simp [takeSpaces1])
  | cons c cs' =>
    simp only [takeSpaces1] at h
    by_cases hc : isJsSpace c
    · rw [if_pos hc] at h
      simp only [Option.some.injEq] at h
      subst h
      simp only [List.map_cons, takeSpaces1]
      rw [if_pos (by rw [isJsSpace_asciiUpper]; exact hc), List.dropWhile_map]
      have hcomp : (isJsSpace ∘ asciiUpper) = isJsSpace := funext isJsSpace_asciiUpper
      rw [hcomp]
    · rw [if_neg hc] at h
      exact absurd h (by simp)

lemma asciiUpper_of_space {c : Char} (h : isJsSpace c = true) : asciiUpper c = c := by
  simp only [isJsSpace, Bool.or_eq_true, decide_eq_true_eq] at h
  rcases h with ((((h | h) | h) | h) | h) | h <;> subst h <;> decide

lemma map_asciiUpper_of_all : ∀ {l : List Char},
    (∀ c ∈ l, asciiUpper c = c) → l.map asciiUpper = l
  | [], _ => rfl
  | c :: l, h => by
    simp only [List.map_cons]
    rw [h c (by simp), map_asciiUpper_of_all (fun d hd => h d (by simp [hd]))]

lemma map_asciiUpper_of_dropWhile : ∀ {l : List Char},
    (∀ d ∈ l.dropWhile isJsSpace, asciiUpper d = d) → l.map asciiUpper = l := by
  intro l
  induction l with
  | nil => exact fun _ => rfl
  | cons d l ih =>
    intro h
    by_cases hd : isJsSpace d
    · rw [List.dropWhile_cons_of_pos hd] at h
      simp only [List.map_cons]
      rw [asciiUpper_of_space hd, ih h]
    · rw [List.dropWhile_cons_of_neg hd] at h
      exact map_asciiUpper_of_all h

lemma parseTrailer_map_upper (cs : List Char)
    (t : Option String × Option String × Option String × Option String)
    (h : parseTrailer cs = some t) :
    parseTrailer (cs.map asciiUpper) = some t := by
  have h0 := h
  cases cs with
  | nil => exact h
  | cons c cs' =>
    simp only [parseTrailer, bind, Option.bind_eq_some] at h
    obtain ⟨rest, hsp, hm⟩ := h
    have hc : isJsSpace c = true := by
      by_cases hcs : isJsSpace c
      · exact hcs
      · simp only [takeSpaces1, if_neg hcs] at hsp
        exact Option.noConfusion hsp
    have hr : rest = cs'.dropWhile isJsSpace := by
      simp only [takeSpaces1, if_pos hc, Option.some.injEq] at hsp
      exact hsp.symm
    have hfix : ∀ d ∈ rest, asciiUpper d = d := by
      rcases rest with - | ⟨x, - | ⟨y, - | ⟨z, - | ⟨w, rr⟩⟩⟩⟩
      · exact Option.noConfusion hm
      · exact Option.noConfusion hm
      · exact Option.noConfusion hm
      · have hm' : trailerAlt x y z = some t := hm
        simp only [trailerAlt] at hm'
        by_cases h1 : ((x = 'R' ∧ y = 'R') ∨ (x = 'C' ∧ y = 'C') ∨ (x = 'A' ∧ y = 'A')) ∧
            ('A' ≤ z ∧ z ≤ 'X')
        · intro d hd
          have hz : asciiUpper z = z :=
            asciiUpper_eq_of_upper h1.2.1 (h1.2.2.trans (by decide))
          have hxy : asciiUpper x = x ∧ asciiUpper y = y := by
            rcases h1.1 with ⟨rfl, rfl⟩ | ⟨rfl, rfl⟩ | ⟨rfl, rfl⟩ <;>
              exact ⟨by decide, by decide⟩
          rcases (by simpa using hd : d = x ∨ d = y ∨ d = z) with rfl | rfl | rfl
          · exact hxy.1
          · exact hxy.2
          · exact hz
        · rw [if_neg h1] at hm'
          by_cases h2 : x = 'P' ∧ ('A' ≤ y ∧ y ≤ 'Z') ∧ ('A' ≤ z ∧ z ≤ 'Z')
          · intro d hd
            obtain ⟨rfl, hy, hz⟩ := h2
            rcases (by simpa using hd : d = 'P' ∨ d = y ∨ d = z) with rfl | rfl | rfl
            · decide
            · exact asciiUpper_eq_of_upper hy.1 hy.2
            · exact asciiUpper_eq_of_upper hz.1 hz.2
          · rw [if_neg h2] at hm'
            exact Option.noConfusion hm'
      · exact Option.noConfusion hm
    have hall : (c :: cs').map asciiUpper = c :: cs' := by
      simp only [List.map_cons]
      rw [asciiUpper_of_space hc]
      rw [map_asciiUpper_of_dropWhile (fun d hd => hfix d (by rw [hr]; exact hd))]
    rw [hall]
    exact h0

lemma map_map_asciiUpper : ∀ (l : List Char),
    (l.map asciiUpper).map asciiUpper = l.map asciiUpper
  | [] => rfl
  | c :: l => by simp only [List.map_cons, asciiUpper_idem, map_map_asciiUpper l]

lemma strUpper_idem (s : String) : strUpper (strUpper s) = strUpper s :=
  congrArg String.mk (map_map_asciiUpper s.data)

lemma mkHeaderFields_designator (g : HeadingGroups) :
    (mkHeaderFields g).designator = strUpper g.g1 := by
  cases hg6 : g.g6 with
  | some t =>
    simp only [mkHeaderFields, hg6]
    split_ifs <;> rfl
  | none =>
    cases hg8 : g.g8 <;> simp only [mkHeaderFields, hg6, hg8]

lemma mkHeaderFields_station (g : HeadingGroups) :
    (mkHeaderFields g).station = strUpper g.g2 := by
  cases hg6 : g.g6 with
  | some t =>
    simp only [mkHeaderFields, hg6]
    split_ifs <;> rfl
  | none =>
    cases hg8 : g.g8 <;> simp only [mkHeaderFields, hg6, hg8]

lemma mkHeaderFields_congr {a b : HeadingGroups} (hdes : strUpper a.g1 = strUpper b.g1)
    (hsta : strUpper a.g2 = strUpper b.g2) (h3 : a.g3 = b.g3) (h4 : a.g4 = b.g4)
    (h5 : a.g5 = b.g5) (h6 : a.g6 = b.g6) (h7 : a.g7 = b.g7) (h8 : a.g8 = b.g8)
    (h9 : a.g9 = b.g9) : mkHeaderFields a = mkHeaderFields b := by
  obtain ⟨a1, a2, a3, a4, a5, a6, a7, a8, a9⟩ := a
  obtain ⟨b1, b2, b3, b4, b5, b6, b7, b8, b9⟩ := b
  simp only at hdes hsta h3 h4 h5 h6 h7 h8 h9
  subst h3
  subst h4
  subst h5
  subst h6
  subst h7
  subst h8
  subst h9
  simp only [mkHeaderFields]
  rw [hdes, hsta]

/-- C10: for every line accepted by the abbreviated-heading decoder, the
decoded designator and station are uppercase strings (uppercasing them again
changes nothing), and decoding the fully uppercased line produces the very
same header record — so the registry lookup keyed on the designator is
insensitive to the letter case of the input heading. -/
theorem header_case_insensitive (line : String) (g : HeadingGroups)
    (h : parseAbbrevHeading line = some g) :
    (mkHeaderFields g).designator = strUpper (mkHeaderFields g).designator ∧
    (mkHeaderFields g).station = strUpper (mkHeaderFields g).station ∧
    (parseAbbrevHeading (strUpper line)).map mkHeaderFields
      = some (mkHeaderFields g) := by
  simp only [parseAbbrevHeading, bind, Option.bind_eq_some, Option.pure_def,
    Option.some.injEq] at h
  obtain ⟨⟨g1a, r1⟩, h1, ⟨g1b, r2⟩, h2, r3, h3, ⟨g2l, r4⟩, h4, r5, h5, ⟨g3l, r6⟩, h6,
    ⟨g4l, r7⟩, h7, ⟨g5l, r8⟩, h8, ⟨g6, g7, g8, g9⟩, h9, hg⟩ := h
  subst hg
  refine ⟨?_, ?_, ?_⟩
  · rw [mkHeaderFields_designator, strUpper_idem]
  · rw [mkHeaderFields_station, strUpper_idem]
  · have d1b : g1b.map asciiUpper = g1b :=
      map_asciiUpper_of_digits (takeClass_sat 2 r1 g1b r2 h2)
    have d3 : g3l.map asciiUpper = g3l :=
      map_asciiUpper_of_digits (takeClass_sat 2 r5 g3l r6 h6)
    have d4 : g4l.map asciiUpper = g4l :=
      map_asciiUpper_of_digits (takeClass_sat 2 r6 g4l r7 h7)
    have d5 : g5l.map asciiUpper = g5l :=
      map_asciiUpper_of_digits (takeClass_sat 2 r7 g5l r8 h8)
    have m1 := takeClass_map_upper isJsWord_asciiUpper 4 line.data g1a r1 h1
    have m2 := takeClass_map_upper isJsDigit_asciiUpper 2 r1 g1b r2 h2
    have m3 := takeSpaces1_map_upper r2 r3 h3
    have m4 := takeClass_map_upper isJsWord_asciiUpper 4 r3 g2l r4 h4
    have m5 := takeSpaces1_map_upper r4 r5 h5
    have m6 := takeClass_map_upper isJsDigit_asciiUpper 2 r5 g3l r6 h6
    have m7 := takeClass_map_upper isJsDigit_asciiUpper 2 r6 g4l r7 h7
    have m8 := takeClass_map_upper isJsDigit_asciiUpper 2 r7 g5l r8 h8
    have m9 := parseTrailer_map_upper r8 (g6, g7, g8, g9) h9
    rw [d1b] at m2
    rw [d3] at m6
    rw [d4] at m7
    rw [d5] at m8
    have hparse : parseAbbrevHeading (strUpper line) = some
        { g1 := String.mk (g1a.map asciiUpper ++ g1b), g2 := String.mk (g2l.map asciiUpper),
          g3 := String.mk g3l, g4 := String.mk g4l, g5 := String.mk g5l,
          g6 := g6, g7 := g7, g8 := g8, g9 := g9 } := by
      simp only [parseAbbrevHeading, bind, Option.bind_eq_some, Option.pure_def,
        Option.some.injEq]
      exact ⟨(g1a.map asciiUpper, r1.map asciiUpper), m1,
        (g1b, r2.map asciiUpper), m2, r3.map asciiUpper, m3,
        (g2l.map asciiUpper, r4.map asciiUpper), m4, r5.map asciiUpper, m5,
        (g3l, r6.map asciiUpper), m6, (g4l, r7.map asciiUpper), m7,
        (g5l, r8.map asciiUpper), m8, (g6, g7, g8, g9), m9, rfl⟩
    rw [hparse, Option.map_some']
    congr 1
    refine mkHeaderFields_congr ?_ ?_ rfl rfl rfl rfl rfl rfl rfl
    · show String.mk ((g1a.map asciiUpper ++ g1b).map asciiUpper)
        = String.mk ((g1a ++ g1b).map asciiUpper)
      rw [List.map_append, List.map_append, map_map_asciiUpper]
    · show String.mk ((g2l.map asciiUpper).map asciiUpper)
        = String.mk (g2l.map asciiUpper)
      rw [map_map_asciiUpper]

/-- Heading groups of the mixed-case witness line `noUS42 knhc 261358`. -/
def c10Groups : HeadingGroups :=
  { g1 := "noUS42", g2 := "knhc", g3 := "26", g4 := "13", g5 := "58",
    g6 := none, g7 := none, g8 := none, g9 := none }

/-- Witness for C10 at a mixed-case heading: `noUS42 knhc 261358` decodes, and
decoding the uppercased line gives the identical header record. -/
theorem header_case_insensitive_witness :
    ((mkHeaderFields c10Groups).designator = strUpper (mkHeaderFields c10Groups).designator ∧
     (mkHeaderFields c10Groups).station = strUpper (mkHeaderFields c10Groups).station ∧
     (parseAbbrevHeading (strUpper "noUS42 knhc 261358")).map mkHeaderFields
       = some (mkHeaderFields c10Groups)) :=
  header_case_insensitive "noUS42 knhc 261358" c10Groups (by rfl)

/-! ## Temporal resolution (src/WmoDate.ts and the tropical-outlook issued
date, ABXX20 line 55)

`WmoDate` first rewrites time-zone abbreviations to fixed offsets (a static
table, no DST logic) and then delegates to the external date-fns `parse`.
The date-fns library is not part of this repository, so the parse of the
fixed tropical-outlook format is modelled from the spec below. -/

/-- The abbreviation table of WmoDate.ts lines 26-35, applied in order; each
`String.replace` rewrites only the first occurrence. -/
def tzTable : List (String × String) :=
  [("EDT", "-04:00"), ("EST", "-05:00"), ("CDT", "-05:00"), ("CST", "-06:00"),
    ("MDT", "-06:00"), ("MST", "-07:00"), ("PDT", "-07:00"), ("PST", "-08:00"),
    ("HDT", "-09:00"), ("HST", "-10:00")]

def replaceFirstStr (s pat repl : String) : String :=
  String.mk (replaceFirstList pat.data repl.data s.data)

def tzNormalize (s : String) : String :=
  tzTable.foldl (fun acc pr => replaceFirstStr acc pr.1 pr.2) s

/-- Proleptic-Gregorian day count since 1970-01-01 (the standard
days-from-civil algorithm); used for years ≥ 1, where all the divisions are
on non-negative operands. -/
def daysFromCivil (y : Int) (m d : Nat) : Int :=
  let y' : Int := if m ≤ 2 then y - 1 else y
  let era : Int := (if 0 ≤ y' then y' else y' - 399) / 400
  let yoe : Int := y' - era * 400
  let mp : Int := ((m : Int) + 9) % 12
  let doy : Int := (153 * mp + 2) / 5 + (d : Int) - 1
  let doe : Int := yoe * 365 + yoe / 4 - yoe / 100 + doy
  era * 146097 + doe - 719468

/-- Unix epoch seconds of a UTC instant. -/
def epochOfUtc (y : Int) (m d hh mi : Nat) : Int :=
  daysFromCivil y m d * 86400 + (hh : Int) * 3600 + (mi : Int) * 60

def isLeapYear (y : Int) : Bool := (y % 4 == 0 && y % 100 != 0) || y % 400 == 0

def daysInMonth (y : Int) (m : Nat) : Nat :=
  if m = 2 then (if isLeapYear y then 29 else 28)
  else if m = 4 ∨ m = 6 ∨ m = 9 ∨ m = 11 then 30
  else 31

def parseLit (pat cs : List Char) : Option (List Char) :=
  if pat.isPrefixOf cs then some (cs.drop pat.length) else none

def parse2Digits : List Char → Option (Nat × List Char)
  | a :: b :: rest =>
    if isJsDigit a ∧ isJsDigit b then
      some ((a.toNat - 48) * 10 + (b.toNat - 48), rest)
    else none
  | _ => none

def parse4Digits (cs : List Char) : Option (Nat × List Char) := do
  let (hi, r1) ← parse2Digits cs
  let (lo, r2) ← parse2Digits r1
  some (hi * 100 + lo, r2)

/-- The `h` token (hour 1-12, one or two digits, pattern `1[0-2]|0?\d`). -/
def parseHour12 : List Char → Option (Nat × List Char)
  | '1' :: c :: rest =>
    if '0' ≤ c ∧ c ≤ '2' then some (10 + (c.toNat - 48), rest)
    else some (1, c :: rest)
  | '0' :: c :: rest =>
    if isJsDigit c then some (c.toNat - 48, rest) else some (0, c :: rest)
  | c :: rest => if isJsDigit c then some (c.toNat - 48, rest) else none
  | [] => none

/-- The `a` token: day period. `true` means PM. -/
def parseAmPm : List Char → Option (Bool × List Char)
  | 'A' :: 'M' :: rest => some (false, rest)
  | 'P' :: 'M' :: rest => some (true, rest)
  | _ => none

/-- The `XXX` token: `±HH:MM` or `Z`, as minutes east of UTC. -/
def parseOffset : List Char → Option (Int × List Char)
  | 'Z' :: rest => some (0, rest)
  | '+' :: rest => do
    let (hh, r1) ← parse2Digits rest
    let r2 ← parseLit [':'] r1
    let (mi, r3) ← parse2Digits r2
    some (((hh * 60 + mi : Nat) : Int), r3)
  | '-' :: rest => do
    let (hh, r1) ← parse2Digits rest
    let r2 ← parseLit [':'] r1
    let (mi, r3) ← parse2Digits r2
    some (-((hh * 60 + mi : Nat) : Int), r3)
  | _ => none

def weekdayNames : List String :=
  ["Sun", "Mon", "Tue", "Wed", "Thu", "Fri", "Sat"]

/-- The `EEE` token: consume a weekday abbreviation (its value does not feed
the resulting instant). -/
def parseWeekday (cs : List Char) : Option (List Char) :=
  weekdayNames.foldr
    (fun w acc => if (w.data).isPrefixOf cs then some (cs.drop 3) else acc) none

def monthNames : List String :=
  ["Jan", "Feb", "Mar", "Apr", "May", "Jun", "Jul", "Aug", "Sep", "Oct", "Nov", "Dec"]

/-- The `MMM` token: month abbreviation, 1-based value. -/
def parseMonth (cs : List Char) : Option (Nat × List Char) :=
  go monthNames 1
where
  go : List String → Nat → Option (Nat × List Char)
    | [], _ => none
    | w :: ws, i => if (w.data).isPrefixOf cs then some (i, cs.drop 3) else go ws (i + 1)

/-- The time-of-day half of the format: the `hmm a XXX` tokens followed by a
space, yielding hour, minute, day-period, offset-minutes and the rest. -/
def twoIssuedTime (cs : List Char) : Option (Nat × Nat × Bool × Int × List Char) := do
  let (h, r1) ← parseHour12 cs
  let (mi, r2) ← parse2Digits r1
  let r3 ← parseLit [' '] r2
  let (pm, r4) ← parseAmPm r3
  let r5 ← parseLit [' '] r4
  let (off, r6) ← parseOffset r5
  let r7 ← parseLit [' '] r6
  some (h, mi, pm, off, r7)

/-- The calendar half of the format: the `EEE MMM dd yyyy` tokens, yielding
month, day, year and the rest. -/
def twoIssuedDay (cs : List Char) : Option (Nat × Nat × Nat × List Char) := do
  let r8 ← parseWeekday cs
  let r9 ← parseLit [' '] r8
  let (mon, r10) ← parseMonth r9
  let r11 ← parseLit [' '] r10
  let (day, r12) ← parse2Digits r11
  let r13 ← parseLit [' '] r12
  let (yr, r14) ← parse4Digits r13
  some (mon, day, yr, r14)

/-- Modelled from the spec: the TemporalResolver parse of the tropical-outlook
issued-date format `hmm a XXX EEE MMM dd yyyy` (the date-fns `parse`
dependency is outside this repository's sources). Time-zone abbreviations are
first rewritten to fixed offsets exactly as WmoDate.ts does; the hour/minute,
day-period, fixed offset, weekday, month name, day and year tokens are then
consumed in order, the whole string must be consumed, the fields must be
calendar-valid, and the absolute instant is the local time minus the offset. -/
def twoIssuedParse (s : String) : Option Int := do
  let (h, mi, pm, off, r7) ← twoIssuedTime (tzNormalize s).data
  let (mon, day, yr, r14) ← twoIssuedDay r7
  if r14 = [] ∧ 1 ≤ h ∧ h ≤ 12 ∧ mi ≤ 59 ∧ 1 ≤ day ∧ day ≤ daysInMonth (yr : Int) mon then
    some (daysFromCivil (yr : Int) mon day * 86400 +
      ((h % 12 + (if pm then 12 else 0) : Nat) : Int) * 3600 + (mi : Int) * 60 - off * 60)
  else none

/-- C4 counterexample: the sample issued line `200 AM EDT Fri Oct 18 2024` is
2:00 AM at UTC-4, which is 2024-10-18T06:00:00Z — not the claim's
2024-10-18T04:00:00Z. -/
theorem two_issued_date_not_0400Z :
    twoIssuedParse "200 AM EDT Fri Oct 18 2024" ≠ some (epochOfUtc 2024 10 18 4 0) := by
  decide

/-- C4 as amended: parsing `200 AM EDT Fri Oct 18 2024` against the
hour/minute/am-pm/zone/weekday/month/day/year format, with EDT rewritten to
the fixed offset `-04:00`, yields the absolute instant 2024-10-18T06:00:00Z
(epoch second 1729231200). -/
theorem two_issued_date_amended :
    twoIssuedParse "200 AM EDT Fri Oct 18 2024" = some (epochOfUtc 2024 10 18 6 0) ∧
    epochOfUtc 2024 10 18 6 0 = 1729231200 := by
  exact ⟨by decide, by decide⟩

/-! ## TCPOD header plan identifier and negative basin (unnamed NOUS42
source, 2025 version: Nous42Header lines 673-689, Nous42Basin lines 760-813)

The plan-identifier line is matched against
`/(?:(WS|TC)POD )?NUMBER\.*((\d+)-(\d+))( CORRECTION)?( AMENDMENT)?/`
(unanchored, leftmost match). Each token's follower is disjoint from it
(dots vs digits, digits vs `-`), so a deterministic left-to-right parser is
exact; when the optional `(WS|TC)POD ` prefix matches, the input cannot also
start with `NUMBER`, so the regex's retry-without-prefix at the same start
position can never succeed and is omitted. -/

/-- Match-array groups of the plan-identifier regex. -/
structure TcpodGroups where
  g1 : Option String
  g2 : String
  g3 : String
  g4 : String
  g5 : Bool
  g6 : Bool
  deriving DecidableEq, Repr

/-- The plan-identifier regex matched at one start position. -/
def tcpodMatchAt (cs : List Char) : Option TcpodGroups :=
  let pre : Option String × List Char :=
    match cs with
    | 'W' :: 'S' :: 'P' :: 'O' :: 'D' :: ' ' :: r => (some "WS", r)
    | 'T' :: 'C' :: 'P' :: 'O' :: 'D' :: ' ' :: r => (some "TC", r)
    | _ => (none, cs)
  let g1 := pre.1
  let r0 := pre.2
  if ("NUMBER".data).isPrefixOf r0 then
    let r2 := (r0.drop 6).dropWhile (fun c => c = '.')
    let ds1 := r2.takeWhile isJsDigit
    if ds1.isEmpty then none
    else
      match r2.drop ds1.length with
      | '-' :: r3 =>
        let ds2 := r3.takeWhile isJsDigit
        if ds2.isEmpty then none
        else
          let r4 := r3.drop ds2.length
          let g5 := (" CORRECTION".data).isPrefixOf r4
          let r5 := if g5 then r4.drop 11 else r4
          let g6 := (" AMENDMENT".data).isPrefixOf r5
          some { g1 := g1, g2 := String.mk (ds1 ++ '-' :: ds2),
                 g3 := String.mk ds1, g4 := String.mk ds2, g5 := g5, g6 := g6 }
      | _ => none
  else none

/-- Leftmost match of the plan-identifier regex. -/
def tcpodSearch : List Char → Option TcpodGroups
  | [] => tcpodMatchAt []
  | c :: rest =>
    match tcpodMatchAt (c :: rest) with
    | some g => some g
    | none => tcpodSearch rest

/-- `INous42HeaderTcpod`. -/
structure Nous42HeaderTcpod where
  full : String
  tc : Bool
  yr : Option String
  seq : Option String
  deriving DecidableEq, Repr

/-- Nous42Header lines 678-683: the decoded plan identifier
`full := (group1 ?? 'TCPOD') + '-' + group2`, `tc := group1 !== 'WS'`,
`yr := group3`, `seq := group4`. -/
def mkTcpod (g : TcpodGroups) : Nous42HeaderTcpod :=
  { full := (g.g1.getD "TCPOD") ++ "-" ++ g.g2
    tc := g.g1 ≠ some "WS"
    yr := some g.g3
    seq := some g.g4 }

/-- `this.correction = !!tcpodNo[5]` (line 684). -/
def tcpodCorrection (g : TcpodGroups) : Bool := g.g5

/-- `this.amendment = !!tcpodNo[6]` (line 685). -/
def tcpodAmendment (g : TcpodGroups) : Bool := g.g6

/-! The basin-body grammar of `Nous42Basin` — `processStorms`, `processOutlook`
(twice, the second optional) and `processRemark` — runs after the basin-name
line has been consumed. The storm-block loop (`Nous42Storm`), the
non-negative outlook accumulation loop, the remark accumulation loop and the
fatal missing-outlook raise lie outside the embedded fragment: a run entering
any of them yields `none` here, so a `some` result is exactly a run of the
modelled branches. -/

/-- Storm records belong to the unmodelled storm-block grammar; the modelled
branches never construct one. -/
inductive Nous42Storm where
  | unmodelled
  deriving DecidableEq, Repr

/-- `INous42Outlook`. -/
structure Nous42Outlook where
  negative : Bool
  text : String
  deriving DecidableEq, Repr

/-- `INous42Canceled` (only its empty list occurs in the modelled branches). -/
structure Nous42Canceled where
  tcpod : Option String
  mission : Option String
  deriving DecidableEq, Repr

/-- `INous42Basin`. -/
structure Nous42Basin where
  storms : List Nous42Storm
  outlook : List Nous42Outlook
  remarks : List String
  canceled : List Nous42Canceled
  deriving DecidableEq, Repr

/-- Containment of one character list in another (an unanchored literal
regex is exactly a substring test). -/
def listContainsSub (pat : List Char) : List Char → Bool
  | [] => pat.isEmpty
  | c :: rest => pat.isPrefixOf (c :: rest) || listContainsSub pat rest

/-- The regex `/1\. NEGATIVE RECONNAISSANCE REQUIREMENTS\./` — an unanchored
literal, i.e. a substring test. -/
def negativeReconMatcher (l : String) : Option Unit :=
  if listContainsSub "1. NEGATIVE RECONNAISSANCE REQUIREMENTS.".data l.data then some () else none

/-- `processStorms` (lines 760-771): on a negative-reconnaissance line the
storm list stays empty; the storm-block loop is outside the model. -/
def processStorms (p : WmoParser) : Option (List Nous42Storm × WmoParser) :=
  let r := p.extract negativeReconMatcher true true
  match r.1 with
  | some _ => some ([], r.2)
  | none => none

/-- The outlook-line regex
`/\d+\. (?:(?:ADDITIONAL|SUCCEEDING)\s+DAY\s+OUTLOOK|OUTLOOK\s+FOR\s+SUCCEEDING\s+DAY)(?::|\.+)(.*)$/`
matched at one start position, returning capture group 1. The first
alternative is tried first, `:` is preferred over the dot run, and the
greedy dot run then leaves the rest of the line to group 1. -/
def outlookMatchAt (cs : List Char) : Option String :=
  let ds := cs.takeWhile isJsDigit
  if ds.isEmpty then none
  else
    match cs.drop ds.length with
    | '.' :: ' ' :: r1 =>
      let alt1 : Option (List Char) := do
        let r2 ←
          if ("ADDITIONAL".data).isPrefixOf r1 then some (r1.drop 10)
          else if ("SUCCEEDING".data).isPrefixOf r1 then some (r1.drop 10)
          else none
        let r3 ← takeSpaces1 r2
        let r4 ← parseLit "DAY".data r3
        let r5 ← takeSpaces1 r4
        parseLit "OUTLOOK".data r5
      let alt2 : Option (List Char) := do
        let r2 ← parseLit "OUTLOOK".data r1
        let r3 ← takeSpaces1 r2
        let r4 ← parseLit "FOR".data r3
        let r5 ← takeSpaces1 r4
        let r6 ← parseLit "SUCCEEDING".data r5
        let r7 ← takeSpaces1 r6
        parseLit "DAY".data r7
      match (match alt1 with | some r => some r | none => alt2) with
      | none => none
      | some after =>
        match after with
        | ':' :: rest => some (String.mk rest)
        | '.' :: rest => some (String.mk (rest.dropWhile (fun c => c = '.')))
        | _ => none
    | _ => none

/-- Leftmost match of the outlook-line regex. -/
def outlookSearch : List Char → Option String
  | [] => outlookMatchAt []
  | c :: rest =>
    match outlookMatchAt (c :: rest) with
    | some s => some s
    | none => outlookSearch rest

def outlookMatcher (l : String) : Option String := outlookSearch l.data

/-- `processOutlook` (lines 773-813): a missing line is allowed only for the
optional second call (the required call's raise and the non-negative
accumulation loop are outside the model); a matched line whose group-1 text
contains `NEGATIVE` short-circuits to a single negative outlook entry. -/
def processOutlook (p : WmoParser) (optional : Bool) :
    Option (List Nous42Outlook × WmoParser) :=
  let r := p.extract outlookMatcher true true
  match r.1 with
  | none => if optional then some ([], r.2) else none
  | some txt0 =>
    let text := jsTrim txt0
    if listContainsSub "NEGATIVE".data text.data then
      some ([{ negative := true, text := text }], r.2)
    else none

/-- The tail of the remark regex after the literal `REMARK`: `S?` (greedy,
with its vacuous backtrack), then optionally `\s*\(CHANGED\)`, then `:`,
then group 2 takes the rest of the line. -/
def remarkTail (r : List Char) : Option String :=
  let rest : List Char → Option String := fun r2 =>
    let withCh : Option String :=
      let sp := r2.dropWhile isJsSpace
      if ("(CHANGED)".data).isPrefixOf sp then
        match sp.drop 9 with
        | ':' :: tl => some (String.mk tl)
        | _ => none
      else none
    match withCh with
    | some s => some s
    | none =>
      match r2 with
      | ':' :: tl => some (String.mk tl)
      | _ => none
  match r with
  | 'S' :: r2 =>
    (match rest r2 with
     | some s => some s
     | none => rest ('S' :: r2))
  | _ => rest r

/-- The remark-line regex `/\d+\.\s+.*?REMARKS?(\s*\(CHANGED\))?:(.*)$/`
matched at one start position: digits, a dot, at least one space, then the
lazy `.*?` scans to the earliest position where the `REMARK...` tail
matches. -/
def remarkScan : List Char → Option String
  | [] => none
  | c :: r =>
    match (if ("REMARK".data).isPrefixOf (c :: r) then remarkTail ((c :: r).drop 6) else none) with
    | some s => some s
    | none => remarkScan r

def remarkMatchAt (cs : List Char) : Option String :=
  let ds := cs.takeWhile isJsDigit
  if ds.isEmpty then none
  else
    match cs.drop ds.length with
    | '.' :: r1 =>
      match takeSpaces1 r1 with
      | none => none
      | some r2 => remarkScan r2
    | _ => none

def remarkSearch : List Char → Option String
  | [] => remarkMatchAt []
  | c :: rest =>
    match remarkMatchAt (c :: rest) with
    | some s => some s
    | none => remarkSearch rest

def remarkMatcher (l : String) : Option String := remarkSearch l.data

/-- `processRemark` (lines 815-842): no remark line means no remarks; the
remark accumulation loop is outside the model. Note the source passes
`skipIfEmpty = false` here. -/
def processRemark (p : WmoParser) : Option (List String × WmoParser) :=
  let r := p.extract remarkMatcher true false
  match r.1 with
  | none => some ([], r.2)
  | some _ => none

/-- The basin body after the basin-name line: storms, the required outlook,
the optional additional outlook, then the optional remark section. -/
def nous42BasinBody (p : WmoParser) : Option (Nous42Basin × WmoParser) := do
  let (storms, p1) ← processStorms p
  let (ol1, p2) ← processOutlook p1 false
  let (ol2, p3) ← processOutlook p2 true
  let (rem, p4) ← processRemark p3
  some ({ storms := storms, outlook := ol1 ++ ol2, remarks := rem, canceled := [] }, p4)

/-- The two body lines of the claim's basin section, indented as in the
sample bulletin (the cursor trims before matching). -/
def c3BasinParser : WmoParser :=
  { fileLines := ["    1. NEGATIVE RECONNAISSANCE REQUIREMENTS.",
                  "    2. OUTLOOK FOR SUCCEEDING DAY.....NEGATIVE."],
    position := 0 }

/-- C3 (code bug evaluated at the failing input): for the header line
`TCPOD NUMBER.....25-148` the decoded plan identifier is
`full = "TC-25-148"` — group 1 of the regex captures only `TC` (the `POD `
is outside the capture), while the `?? 'TCPOD'` fallback shows the full
`TCPOD-...` form was intended — with `tc = true`, `yr = "25"`,
`seq = "148"` as the claim says; and the negative basin body does decode to
an empty storm list and one outlook entry with `negative = true`. -/
theorem tcpod_number_and_negative_basin :
    (tcpodSearch ("TCPOD NUMBER.....25-148".data)).map mkTcpod =
      some { full := "TC-25-148", tc := true, yr := some "25", seq := some "148" } ∧
    "TC-25-148" ≠ "TCPOD-25-148" ∧
    nous42BasinBody c3BasinParser =
      some ({ storms := [], outlook := [{ negative := true, text := "NEGATIVE." }],
              remarks := [], canceled := [] },
        { fileLines := c3BasinParser.fileLines, position := 2 }) := by
  refine ⟨by decide, by decide, by decide⟩

/-! ## The whole-decode pipeline (src/WmoFile.ts, src/WmoHeader.ts) and its
determinism (claim C5)

`WmoFile` builds the cursor, decodes the header, resolves the message parser
(the registry entry for the designator, or the caller's `messageParser`
override), runs it, and wraps any non-`WmoParseError` failure raised while
the cursor exists. The message parser and the registry are parameters here,
exactly as the `messageParser` option allows; every embedded decoder is a
pure state-passing function, so any instantiation is covered. -/

/-- Matcher for the optional sequence line `/^\s*(\d{3})\s*$/` as applied to
the already-trimmed line: exactly three digits. -/
def seqMatcher (l : String) : Option String :=
  if l.data.length = 3 ∧ l.data.all isJsDigit then some l else none

/-- Modelled from the spec: the header's nominal datetime — the 6-digit
day/hour/minute field (format `dd HH:mmX`) resolved against the context
instant's year and month (the date-fns `parse` dependency is outside this
repository's sources); a calendar-invalid combination fails. -/
def headerDatetimeEpoch (ctxYear : Int) (ctxMonth day hour minute : Nat) : Option Int :=
  if 1 ≤ day ∧ day ≤ daysInMonth ctxYear ctxMonth ∧ hour ≤ 23 ∧ minute ≤ 59 then
    some (daysFromCivil ctxYear ctxMonth day * 86400 +
      (hour : Int) * 3600 + (minute : Int) * 60)
  else none

/-- The full decoded header: optional sequence number, the heading fields,
and the resolved nominal datetime. -/
structure WmoHeaderFull where
  sequence : Option Int
  fields : WmoHeaderRec
  datetimeEpoch : Int
  deriving DecidableEq, Repr

/-- The `message` of a raised error (`e.message`). -/
def jsErrMsg : JsErr → String
  | .wmoParseError m => m
  | .typeError m => m
  | .jsError m => m

/-- The `WmoHeader` constructor (WmoHeader.ts lines 48-77): optional sequence
line, the mandatory-heading check after a truthy sequence, the heading match,
the field assignment and the datetime resolution (whose failure raises a
plain `Error`, not a `WmoParseError`). -/
def wmoHeaderDecode (ctxYear : Int) (ctxMonth : Nat) (p : WmoParser) :
    Except (JsErr × WmoParser) (WmoHeaderFull × WmoParser) :=
  let rs := p.extract seqMatcher true true
  let p1 := rs.2
  let sequence : Option Int :=
    match rs.1 with
    | some s => some ((digitsVal s.data : Nat) : Int)
    | none => none
  let seqTruthy : Bool := match sequence with | some n => n != 0 | none => false
  if seqTruthy ∧ p1.remainingLines ≤ 0 then
    .error (wmoErrorRaise (.arr p1.fileLines) p1.position
      "Invalid WMO message: Missing Abbreviated Heading. First line was detected as the \"starting line\" which is optional. Second line should then be the Abbreviated Heading as defined at https://www.weather.gov/tg/head", p1)
  else
    let rh := p1.extract parseAbbrevHeading true true
    let p2 := rh.2
    match rh.1 with
    | none =>
      .error (wmoErrorRaise (.arr p2.fileLines) p2.position
        "Invalid WMO message: Missing Abbreviated Heading. First line should be the Abbreviated Heading as defined at https://www.weather.gov/tg/head", p2)
    | some g =>
      let f := mkHeaderFields g
      match headerDatetimeEpoch ctxYear ctxMonth (digitsVal f.day.data)
          (digitsVal f.hour.data) (digitsVal f.minute.data) with
      | none => .error (.jsError "Failed to parse date", p2)
      | some ep => .ok ({ sequence := sequence, fields := f, datetimeEpoch := ep }, p2)

/-- A message-grammar decoder: from the decoded header and the cursor to a
decoded message and the final cursor, or a raised error with the cursor at
the failure. -/
def MsgParser (α : Type) : Type :=
  WmoHeaderFull → WmoParser → Except (JsErr × WmoParser) (α × WmoParser)

/-- The `WmoFile` constructor plus serialization boundary (WmoFile.ts lines
117-145): construct the cursor, decode the header, resolve the message
parser from the registry (raising when there is none), run it, and apply the
top-level catch — a `WmoParseError` propagates unchanged, while any other
error raised with a live cursor is rewound one line and re-raised as a
`WmoParseError` with context (a failed rewind raises its own error). -/
def wmoFileDecode {α : Type} (registry : String → Option (MsgParser α))
    (wmoText : String) (ctxYear : Int) (ctxMonth : Nat) :
    Except JsErr (WmoHeaderFull × α) :=
  match wmoParserInit wmoText with
  | .error e => .error e
  | .ok p0 =>
    let res : Except (JsErr × WmoParser) ((WmoHeaderFull × α) × WmoParser) := do
      let (hd, p1) ← wmoHeaderDecode ctxYear ctxMonth p0
      match registry hd.fields.designator with
      | none =>
        .error (wmoErrorRaise (.arr p1.fileLines) p1.position
          ("No message parser found for designator \"" ++ hd.fields.designator ++
            "\". Please specify the designator via the 'messageParser' option."), p1)
      | some mp => do
        let (msg, p2) ← mp hd p1
        .ok ((hd, msg), p2)
    match res with
    | .ok (out, _) => .ok out
    | .error (e, pe) =>
      if e.isParseFailure then .error e
      else
        match pe.seek (-1) SeekOrigin.current with
        | .error e2 => .error e2
        | .ok p2 =>
          .error (wmoErrorRaise (.arr p2.fileLines) p2.position (jsErrMsg e))

/-- C5: decoding is deterministic — for every input text, every fixed context
instant (year/month of the externally supplied date context) and every
registry of message parsers, running the whole decode twice yields the very
same result, field for field. The embedded decode is a pure function of
these inputs: the source reads no other state once `options.dateCtx`
(defaulting to `new Date()`) is fixed, which the claim's premise fixes. -/
theorem decode_deterministic {α : Type} (registry : String → Option (MsgParser α))
    (wmoText : String) (ctxYear : Int) (ctxMonth : Nat) :
    wmoFileDecode registry wmoText ctxYear ctxMonth =
      wmoFileDecode registry wmoText ctxYear ctxMonth := rfl
